import Mathlib

/-!
Verification of the motion-execution core of `random_points.cpp` (Franka_AR).

The C++ source is shallowly embedded: `double` arithmetic is modelled by exact
rational arithmetic (`ℚ`), a 7-dimensional joint configuration by `Fin 7 → ℚ`,
and the fallible / exception-raising parts by `Option` values and explicit
outcome data.  Each definition mirrors the control flow of the corresponding
C++ function.
-/

namespace FrankaAR

/-- A joint configuration: 7 joint angles (`std::array<double, 7>`). -/
def JointConfig : Type := Fin 7 → ℚ

/-- `quinticPath(double t, double T)` from the source:
`if (t <= 0) return 0.0; if (t >= T) return 1.0;`
else `u = t/T; 10 u^3 - 15 u^4 + 6 u^5`. -/
def quinticPath (t T : ℚ) : ℚ :=
  if t ≤ 0 then 0
  else if t ≥ T then 1
  else
    let u := t / T
    10 * u ^ 3 - 15 * u ^ 4 + 6 * u ^ 5

/-- The inner loop of `getSafeMovementTime`: starting from
`max_delta = 0.0, critical_joint = -1`, for each `i` set
`delta = |q_end[i] - q_start[i]|` and update the pair when `delta > max_delta`. -/
def maxDeltaLoop (q_start q_end : JointConfig) : ℚ × ℤ :=
  (List.finRange 7).foldl
    (fun acc i =>
      let delta := |q_end i - q_start i|
      if delta > acc.1 then (delta, (i : ℤ)) else acc)
    (0, -1)

/-- The maximum absolute per-joint difference computed by the loop
(`.1` of `maxDeltaLoop`). -/
def maxDelta (q_start q_end : JointConfig) : ℚ :=
  (maxDeltaLoop q_start q_end).1

/-- `getSafeMovementTime` from the source: `MAX_JOINT_VELOCITY = 2.0`,
`min_safe_time = max_delta / MAX_JOINT_VELOCITY`; return `desired_time` when
`desired_time >= min_safe_time`, else return `min_safe_time`.  (The division
`max_delta / desired_time` in the source appears only inside a diagnostic
print and never in the returned value.) -/
def getSafeMovementTime (q_start q_end : JointConfig) (desired_time : ℚ) : ℚ :=
  let MAX_JOINT_VELOCITY : ℚ := 2
  let max_delta := (maxDeltaLoop q_start q_end).1
  let min_safe_time := max_delta / MAX_JOINT_VELOCITY
  if desired_time ≥ min_safe_time then desired_time else min_safe_time

/-- The quintic blend polynomial `10 u^3 - 15 u^4 + 6 u^5` evaluated on the
normalized time `u = t / T` in the third branch of `quinticPath`. -/
def quinticPoly (u : ℚ) : ℚ :=
  10 * u ^ 3 - 15 * u ^ 4 + 6 * u ^ 5

lemma quinticPath_of_nonpos {t T : ℚ} (h : t ≤ 0) : quinticPath t T = 0 := by
  simp [quinticPath, h]

lemma quinticPath_of_ge {t T : ℚ} (h0 : 0 < t) (h : T ≤ t) : quinticPath t T = 1 := by
  simp [quinticPath, not_le.mpr h0, ge_iff_le, h]

lemma quinticPath_of_mid {t T : ℚ} (h0 : 0 < t) (h : t < T) :
    quinticPath t T = quinticPoly (t / T) := by
  simp [quinticPath, not_le.mpr h0, ge_iff_le, not_le.mpr h, quinticPoly]

lemma quinticPoly_nonneg {u : ℚ} (hu : 0 ≤ u) : 0 ≤ quinticPoly u := by
  have hq : 0 ≤ 6 * u ^ 2 - 15 * u + 10 := by nlinarith [sq_nonneg (4 * u - 5)]
  have h := mul_nonneg (pow_nonneg hu 3) hq
  simp only [quinticPoly]
  nlinarith [h]

lemma quinticPoly_le_one {u : ℚ} (hu : u ≤ 1) : quinticPoly u ≤ 1 := by
  have hq : 0 ≤ 6 * u ^ 2 + 3 * u + 1 := by nlinarith [sq_nonneg (4 * u + 1)]
  have h1 : (0 : ℚ) ≤ 1 - u := by linarith
  have h := mul_nonneg (pow_nonneg h1 3) hq
  simp only [quinticPoly]
  nlinarith [h]

/-- The quintic polynomial is monotone on all of ℚ: its derivative is
`30 u^2 (1-u)^2 ≥ 0`.  The proof uses an explicit sum-of-squares certificate
for the divided difference. -/
lemma quinticPoly_mono {a b : ℚ} (hab : a ≤ b) : quinticPoly a ≤ quinticPoly b := by
  have key : 24 * (quinticPoly b - quinticPoly a) =
      (b - a) *
        ((12 * (-((b - a) ^ 2)) + 15 * ((b - a) * (1 - 2 * a)) + 20 * (a - a ^ 2)) ^ 2 +
          15 * ((b - a) * (1 - 2 * a) + 4 * (a - a ^ 2)) ^ 2 +
          80 * (a - a ^ 2) ^ 2) := by
    simp only [quinticPoly]; ring
  have hs : 0 ≤ (12 * (-((b - a) ^ 2)) + 15 * ((b - a) * (1 - 2 * a)) + 20 * (a - a ^ 2)) ^ 2 +
      15 * ((b - a) * (1 - 2 * a) + 4 * (a - a ^ 2)) ^ 2 +
      80 * (a - a ^ 2) ^ 2 := by positivity
  nlinarith [mul_nonneg (sub_nonneg.mpr hab) hs]

lemma quinticPoly_symm (u : ℚ) : quinticPoly u + quinticPoly (1 - u) = 1 := by
  simp only [quinticPoly]; ring

/-- `quinticPath` always lies in `[0, 1]`. -/
lemma quinticPath_bounds (t T : ℚ) : 0 ≤ quinticPath t T ∧ quinticPath t T ≤ 1 := by
  rcases le_or_lt t 0 with h0 | h0
  · rw [quinticPath_of_nonpos h0]; norm_num
  · rcases le_or_lt T t with hT | hT
    · rw [quinticPath_of_ge h0 hT]; norm_num
    · have hTpos : 0 < T := lt_trans h0 hT
      rw [quinticPath_of_mid h0 hT]
      constructor
      · exact quinticPoly_nonneg (div_nonneg h0.le hTpos.le)
      · exact quinticPoly_le_one ((div_le_one hTpos).mpr hT.le)

/-- The pair-valued update of `maxDeltaLoop` tracks, in its first component,
exactly the running maximum of the deltas. -/
lemma maxDeltaLoop_fst_eq_foldl_max (f : Fin 7 → ℚ) :
    ∀ (l : List (Fin 7)) (acc : ℚ × ℤ),
      (l.foldl (fun a i => if f i > a.1 then (f i, (i : ℤ)) else a) acc).1 =
        l.foldl (fun m i => max m (f i)) acc.1 := by
  intro l
  induction l with
  | nil => intro acc; rfl
  | cons hd tl ih =>
    intro acc
    simp only [List.foldl_cons]
    rcases lt_or_le acc.1 (f hd) with h | h
    · rw [if_pos h, max_eq_right h.le]; exact ih (f hd, (hd : ℤ))
    · rw [if_neg (not_lt.mpr h), max_eq_left h]; exact ih acc

lemma foldl_max_le_iff (f : Fin 7 → ℚ) :
    ∀ (l : List (Fin 7)) (b c : ℚ),
      l.foldl (fun m i => max m (f i)) b ≤ c ↔ b ≤ c ∧ ∀ i ∈ l, f i ≤ c := by
  intro l
  induction l with
  | nil => intro b c; simp
  | cons hd tl ih =>
    intro b c
    simp only [List.foldl_cons, ih, max_le_iff, List.mem_cons]
    constructor
    · rintro ⟨⟨hb, hhd⟩, htl⟩
      exact ⟨hb, fun i hi => hi.elim (fun h => h ▸ hhd) (htl i)⟩
    · rintro ⟨hb, hall⟩
      exact ⟨⟨hb, hall hd (Or.inl rfl)⟩, fun i hi => hall i (Or.inr hi)⟩

lemma foldl_max_eq_init_or_mem (f : Fin 7 → ℚ) :
    ∀ (l : List (Fin 7)) (b : ℚ),
      l.foldl (fun m i => max m (f i)) b = b ∨
        ∃ i ∈ l, l.foldl (fun m i => max m (f i)) b = f i := by
  intro l
  induction l with
  | nil => intro b; exact Or.inl rfl
  | cons hd tl ih =>
    intro b
    simp only [List.foldl_cons]
    rcases ih (max b (f hd)) with h | ⟨i, hi, h⟩
    · rw [h]
      rcases max_choice b (f hd) with h' | h'
      · exact Or.inl h'
      · exact Or.inr ⟨hd, List.mem_cons_self hd tl, h'⟩
    · exact Or.inr ⟨i, List.mem_cons_of_mem hd hi, h⟩

lemma maxDelta_eq_foldl (q_start q_end : JointConfig) :
    maxDelta q_start q_end =
      (List.finRange 7).foldl (fun m i => max m |q_end i - q_start i|) 0 := by
  simp only [maxDelta, maxDeltaLoop]
  exact maxDeltaLoop_fst_eq_foldl_max (fun i => |q_end i - q_start i|) (List.finRange 7) (0, -1)

lemma maxDelta_le_iff (q_start q_end : JointConfig) (c : ℚ) :
    maxDelta q_start q_end ≤ c ↔ 0 ≤ c ∧ ∀ i, |q_end i - q_start i| ≤ c := by
  rw [maxDelta_eq_foldl, foldl_max_le_iff]
  constructor
  · rintro ⟨h0, hall⟩; exact ⟨h0, fun i => hall i (List.mem_finRange i)⟩
  · rintro ⟨h0, hall⟩; exact ⟨h0, fun i _ => hall i⟩

lemma maxDelta_nonneg (q_start q_end : JointConfig) : 0 ≤ maxDelta q_start q_end :=
  ((maxDelta_le_iff q_start q_end (maxDelta q_start q_end)).mp le_rfl).1

lemma abs_sub_le_maxDelta (q_start q_end : JointConfig) (i : Fin 7) :
    |q_end i - q_start i| ≤ maxDelta q_start q_end :=
  ((maxDelta_le_iff q_start q_end (maxDelta q_start q_end)).mp le_rfl).2 i

lemma maxDelta_is_attained (q_start q_end : JointConfig) :
    ∃ i, maxDelta q_start q_end = |q_end i - q_start i| := by
  rw [maxDelta_eq_foldl]
  rcases foldl_max_eq_init_or_mem (fun i => |q_end i - q_start i|) (List.finRange 7) 0 with
    h | ⟨i, _, h⟩
  · refine ⟨0, le_antisymm ?_ ?_⟩
    · rw [h]; exact abs_nonneg _
    · rw [← maxDelta_eq_foldl]; exact abs_sub_le_maxDelta q_start q_end 0
  · exact ⟨i, h⟩

lemma maxDelta_pos_of_ne {q_start q_end : JointConfig} (h : q_start ≠ q_end) :
    0 < maxDelta q_start q_end := by
  have hne : ∃ i, q_start i ≠ q_end i := Function.ne_iff.mp h
  obtain ⟨i, hi⟩ := hne
  have habs : 0 < |q_end i - q_start i| := abs_pos.mpr (sub_ne_zero.mpr (Ne.symm hi))
  exact lt_of_lt_of_le habs (abs_sub_le_maxDelta q_start q_end i)

/-- The returned value of `getSafeMovementTime` is the pointwise maximum of
the requested duration and `maxDelta / 2`. -/
lemma getSafeMovementTime_eq_max (q_start q_end : JointConfig) (d : ℚ) :
    getSafeMovementTime q_start q_end d = max d (maxDelta q_start q_end / 2) := by
  simp only [getSafeMovementTime, maxDelta, ge_iff_le]
  rcases le_total ((maxDeltaLoop q_start q_end).1 / 2) d with h | h
  · rw [if_pos h, max_eq_left h]
  · rcases eq_or_lt_of_le h with h' | h'
    · rw [h', if_pos le_rfl, max_self]
    · rw [if_neg (not_le.mpr h'), max_eq_right h]

/-! The per-cycle control lambda of `moveJoints`.

The lambda passed to `robot.control` receives the cycle period, accumulates
`time_total += period`, computes `factor = quinticPath(time_total,
safe_duration)` and the command `q_desired[i] = q_current[i] + factor *
(q_target[i] - q_current[i])`, and returns `MotionFinished(q_desired)` exactly
when `time_total >= safe_duration * 1.01`. -/

/-- Result of one invocation of the control lambda: the updated accumulated
time, the emitted joint command, and whether `MotionFinished` was returned. -/
structure StepResult where
  time_total : ℚ
  command : Fin 7 → ℚ
  finished : Bool

/-- One invocation of the control lambda, given the accumulated time before
this cycle and this cycle's period (`1.01 = 101/100`). -/
def controlStep (q_current q_target : JointConfig) (safe_duration : ℚ)
    (time_total_prev period : ℚ) : StepResult :=
  let time_total := time_total_prev + period
  let factor := quinticPath time_total safe_duration
  let q_desired : Fin 7 → ℚ := fun i => q_current i + factor * (q_target i - q_current i)
  { time_total := time_total
    command := q_desired
    finished := decide (time_total ≥ safe_duration * (101 / 100)) }

/-- Accumulated `time_total` after the cycles `0, 1, ..., n` have run, when
cycle `k` reports period `dts k`. -/
def timeTotalThrough (dts : ℕ → ℚ) (n : ℕ) : ℚ :=
  ∑ k in Finset.range (n + 1), dts k

/-- The control lambda's invocation on cycle `n` of a run whose cycle periods
are `dts 0, dts 1, ...`. -/
def controlCycle (q_current q_target : JointConfig) (safe_duration : ℚ)
    (dts : ℕ → ℚ) (n : ℕ) : StepResult :=
  controlStep q_current q_target safe_duration (∑ k in Finset.range n, dts k) (dts n)

lemma controlCycle_time_total (q_current q_target : JointConfig) (safe_duration : ℚ)
    (dts : ℕ → ℚ) (n : ℕ) :
    (controlCycle q_current q_target safe_duration dts n).time_total =
      timeTotalThrough dts n := by
  simp [controlCycle, controlStep, timeTotalThrough, Finset.sum_range_succ]

/-! The configuration parser `readDanceMovesFromConfig`.

A whitespace-separated token of a data line is modelled by what it can be
extracted as: `asInt` is the integer a `>> int` extraction would yield
(`none` when the extraction fails), `asDouble` likewise for `>> double`.
An `istringstream` is modelled as the remaining tokens together with its
fail state; extraction on a failed stream always fails (the fail bit is
sticky), and a failed extraction sets the fail bit. -/

structure Token where
  asInt : Option ℤ
  asDouble : Option ℚ

structure IStream where
  toks : List Token
  failed : Bool

/-- `iss >> move.move_index` (an `int` extraction). -/
def readInt (s : IStream) : IStream × Option ℤ :=
  if s.failed then (s, none)
  else
    match s.toks with
    | [] => (⟨s.toks, true⟩, none)
    | t :: rest =>
      match t.asInt with
      | none => (⟨s.toks, true⟩, none)
      | some v => (⟨rest, false⟩, some v)

/-- `iss >> x` for a `double` field. -/
def readDouble (s : IStream) : IStream × Option ℚ :=
  if s.failed then (s, none)
  else
    match s.toks with
    | [] => (⟨s.toks, true⟩, none)
    | t :: rest =>
      match t.asDouble with
      | none => (⟨s.toks, true⟩, none)
      | some v => (⟨rest, false⟩, some v)

/-- The joint-reading loop `for (i = 0; i < 7; ++i)`: each iteration extracts
one double; on failure it only prints and `continue`s to the next iteration
(the `continue` binds to the `for`, not the enclosing `while`). -/
def readJointsLoop (s : IStream) : IStream × List (Option ℚ) :=
  (List.range 7).foldl
    (fun acc _ =>
      let r := readDouble acc.1
      (r.1, acc.2 ++ [r.2]))
    (s, [])

/-- A parsed move record: the index, the seven joint extractions in order
(`none` where the extraction failed and the array slot stayed unset), and
the move time. -/
structure DanceMove where
  move_index : ℤ
  joints : List (Option ℚ)
  move_time : ℚ

/-- The body of the `while (getline...)` loop for one non-skipped line:
read the index (on failure `continue`, discarding the line), run the joint
loop, read the move time (on failure `continue`, discarding the line), and
otherwise push the move. -/
def parseDanceMoveLine (toks : List Token) : Option DanceMove :=
  let s0 : IStream := ⟨toks, false⟩
  let r1 := readInt s0
  match r1.2 with
  | none => none
  | some idx =>
    let r2 := readJointsLoop r1.1
    let r3 := readDouble r2.1
    match r3.2 with
    | none => none
    | some mt => some ⟨idx, r2.2, mt⟩

/-- A line of the configuration file: empty, a comment (first character
`#`), or a data line of tokens. -/
inductive ConfigLine
  | empty
  | comment (toks : List Token)
  | data (toks : List Token)

/-- `readDanceMovesFromConfig`: skip empty and comment lines, parse each
data line, push the successfully parsed moves in order, and fail when no
valid move was found. -/
def readDanceMovesFromConfig (lines : List ConfigLine) : Except String (List DanceMove) :=
  let dance_moves := lines.foldl
    (fun acc l =>
      match l with
      | ConfigLine.empty => acc
      | ConfigLine.comment _ => acc
      | ConfigLine.data toks =>
        match parseDanceMoveLine toks with
        | none => acc
        | some m => acc ++ [m])
    []
  if dance_moves.isEmpty then
    Except.error "No valid dance moves found in configuration file"
  else
    Except.ok dance_moves

/-- Spec-side well-formedness of a data line, following the spec's words: the
move index, all 7 joint values, and the move time all parse from the line
(i.e. the line starts with an int token followed by eight double tokens). -/
def lineWellFormed (toks : List Token) : Bool :=
  match toks with
  | t0 :: t1 :: t2 :: t3 :: t4 :: t5 :: t6 :: t7 :: t8 :: _ =>
    t0.asInt.isSome && t1.asDouble.isSome && t2.asDouble.isSome && t3.asDouble.isSome &&
      t4.asDouble.isSome && t5.asDouble.isSome && t6.asDouble.isSome && t7.asDouble.isSome &&
      t8.asDouble.isSome
  | _ => false

/-! The fault-recovery and retry protocol of `moveJoints`.

The outcome of one motion attempt (one `robot.control(...)` run) is abstract:
either it completes and the measured wall-clock duration is returned, or a
`franka::Exception` is thrown.  `moveJoints` with `recover_on_error = true`
catches the fault, recovers, and re-invokes itself once with
`recover_on_error = false`; the nested call returns `-1.0` on a fault. -/

inductive AttemptOutcome
  | success (measured : ℚ)
  | fault

/-- What a call to `moveJoints` did: the returned value, how many motion
attempts were made, and how many times `recoverRobot` was invoked. -/
structure MoveReport where
  result : ℚ
  attempts : ℕ
  recoveries : ℕ

/-- `moveJoints(..., recover_on_error = false)`: a single motion attempt;
on a fault, return `-1.0` with no recovery and no further attempt. -/
def moveJointsNoRetry (o : AttemptOutcome) : MoveReport :=
  match o with
  | AttemptOutcome.success d => ⟨d, 1, 0⟩
  | AttemptOutcome.fault => ⟨-1, 1, 0⟩

/-- `moveJoints(..., recover_on_error = true)` (the default): on a fault,
invoke `recoverRobot` and re-invoke `moveJoints` with retry disabled. -/
def moveJoints (o1 o2 : AttemptOutcome) : MoveReport :=
  match o1 with
  | AttemptOutcome.success d => ⟨d, 1, 0⟩
  | AttemptOutcome.fault =>
    let r := moveJointsNoRetry o2
    ⟨r.result, 1 + r.attempts, 1 + r.recoveries⟩

/-! Auxiliary characterization of the joint-reading loop. -/

/-- `k` sequential `readDouble` extractions, collecting the results in
order. -/
def chainRead : ℕ → IStream → IStream × List (Option ℚ)
  | 0, s => (s, [])
  | k + 1, s =>
    let r := readDouble s
    let rest := chainRead k r.1
    (rest.1, r.2 :: rest.2)

lemma readJointsLoop_eq_chainRead (s : IStream) : readJointsLoop s = chainRead 7 s := rfl

lemma readDouble_of_failed (toks : List Token) :
    readDouble ⟨toks, true⟩ = (⟨toks, true⟩, none) := by
  simp [readDouble]

lemma chainRead_of_failed (k : ℕ) (toks : List Token) :
    chainRead k ⟨toks, true⟩ = (⟨toks, true⟩, List.replicate k none) := by
  induction k with
  | zero => rfl
  | succ k ih => simp [chainRead, readDouble_of_failed, ih, List.replicate_succ]

/-- The first `k` tokens exist and each extracts as a double. -/
def goodPrefix : ℕ → List Token → Bool
  | 0, _ => true
  | _ + 1, [] => false
  | k + 1, t :: rest => t.asDouble.isSome && goodPrefix k rest

lemma chainRead_of_goodPrefix :
    ∀ (k : ℕ) (toks : List Token), goodPrefix k toks = true →
      ∃ vals : List ℚ, vals.length = k ∧
        chainRead k ⟨toks, false⟩ = (⟨toks.drop k, false⟩, vals.map some) := by
  intro k
  induction k with
  | zero => intro toks _; exact ⟨[], rfl, rfl⟩
  | succ k ih =>
    intro toks hg
    match toks with
    | [] => simp [goodPrefix] at hg
    | t :: rest =>
      simp only [goodPrefix, Bool.and_eq_true] at hg
      obtain ⟨v, hv⟩ := Option.isSome_iff_exists.mp hg.1
      obtain ⟨vals, hlen, hch⟩ := ih rest hg.2
      refine ⟨v :: vals, by simp [hlen], ?_⟩
      simp [chainRead, readDouble, hv, hch]

lemma readDouble_chainRead_isSome :
    ∀ (k : ℕ) (toks : List Token),
      ((readDouble (chainRead k ⟨toks, false⟩).1).2).isSome = goodPrefix (k + 1) toks := by
  intro k
  induction k with
  | zero =>
    intro toks
    match toks with
    | [] => simp [chainRead, readDouble, goodPrefix]
    | t :: rest =>
      cases ht : t.asDouble with
      | none => simp [chainRead, readDouble, ht, goodPrefix]
      | some v => simp [chainRead, readDouble, ht, goodPrefix]
  | succ k ih =>
    intro toks
    match toks with
    | [] =>
      simp [chainRead, readDouble, chainRead_of_failed, goodPrefix]
    | t :: rest =>
      cases ht : t.asDouble with
      | none =>
        simp [chainRead, readDouble, ht, chainRead_of_failed, readDouble_of_failed, goodPrefix]
      | some v =>
        simp only [chainRead, readDouble, ht, goodPrefix, Option.isSome_some, Bool.true_and]
        exact ih rest

lemma lineWellFormed_cons (t0 : Token) (rest : List Token) :
    lineWellFormed (t0 :: rest) = (t0.asInt.isSome && goodPrefix 8 rest) := by
  rcases rest with _ | ⟨t1, rest⟩
  · simp [lineWellFormed, goodPrefix]
  rcases rest with _ | ⟨t2, rest⟩
  · simp [lineWellFormed, goodPrefix]
  rcases rest with _ | ⟨t3, rest⟩
  · simp [lineWellFormed, goodPrefix]
  rcases rest with _ | ⟨t4, rest⟩
  · simp [lineWellFormed, goodPrefix]
  rcases rest with _ | ⟨t5, rest⟩
  · simp [lineWellFormed, goodPrefix]
  rcases rest with _ | ⟨t6, rest⟩
  · simp [lineWellFormed, goodPrefix]
  rcases rest with _ | ⟨t7, rest⟩
  · simp [lineWellFormed, goodPrefix]
  rcases rest with _ | ⟨t8, rest⟩
  · simp [lineWellFormed, goodPrefix]
  · simp [lineWellFormed, goodPrefix, Bool.and_assoc]

lemma parseDanceMoveLine_isSome_eq (toks : List Token) :
    (parseDanceMoveLine toks).isSome = lineWellFormed toks := by
  match toks with
  | [] => simp [parseDanceMoveLine, readInt, lineWellFormed]
  | t0 :: rest =>
    rw [lineWellFormed_cons]
    cases h0 : t0.asInt with
    | none => simp [parseDanceMoveLine, readInt, h0]
    | some i =>
      simp only [parseDanceMoveLine, readInt, Bool.false_eq_true, if_false,
        readJointsLoop_eq_chainRead, h0, Option.isSome_some, Bool.true_and]
      cases hf : (readDouble (chainRead 7 ⟨rest, false⟩).1).2 with
      | none =>
        have := readDouble_chainRead_isSome 7 rest
        rw [hf] at this
        simp only [Option.isSome_none] at this
        simp [hf, ← this]
      | some mt =>
        have := readDouble_chainRead_isSome 7 rest
        rw [hf] at this
        simp only [Option.isSome_some] at this
        simp [hf, ← this]

lemma goodPrefix_succ_le :
    ∀ (k : ℕ) (toks : List Token), goodPrefix (k + 1) toks = true → goodPrefix k toks = true := by
  intro k
  induction k with
  | zero => intro toks _; rfl
  | succ k ih =>
    intro toks hg
    match toks with
    | [] => simp [goodPrefix] at hg
    | t :: rest =>
      simp only [goodPrefix, Bool.and_eq_true] at hg ⊢
      exact ⟨hg.1, ih rest hg.2⟩

lemma parseDanceMoveLine_joints (toks : List Token) (m : DanceMove)
    (hm : parseDanceMoveLine toks = some m) :
    m.joints.length = 7 ∧ ∀ v ∈ m.joints, Option.isSome v = true := by
  match toks with
  | [] => simp [parseDanceMoveLine, readInt] at hm
  | t0 :: rest =>
    cases h0 : t0.asInt with
    | none => simp [parseDanceMoveLine, readInt, h0] at hm
    | some i =>
      simp only [parseDanceMoveLine, readInt, Bool.false_eq_true, if_false,
        readJointsLoop_eq_chainRead, h0] at hm
      cases hf : (readDouble (chainRead 7 ⟨rest, false⟩).1).2 with
      | none => rw [hf] at hm; simp at hm
      | some mt =>
        rw [hf] at hm
        simp only [Option.some_inj] at hm
        have hiss := readDouble_chainRead_isSome 7 rest
        rw [hf] at hiss
        simp only [Option.isSome_some] at hiss
        have hg7 : goodPrefix 7 rest = true := goodPrefix_succ_le 7 rest hiss.symm
        obtain ⟨vals, hlen, hch⟩ := chainRead_of_goodPrefix 7 rest hg7
        have hjoints : m.joints = vals.map some := by rw [← hm]; rw [hch]
        constructor
        · rw [hjoints]; simp [hlen]
        · intro v hv
          rw [hjoints] at hv
          obtain ⟨x, _, hx⟩ := List.mem_map.mp hv
          rw [← hx]; rfl

/-- The data-line projection used to state the parser's behaviour: a data
line contributes its parsed move, a blank or comment line contributes
nothing. -/
def dataLineMove : ConfigLine → Option DanceMove
  | ConfigLine.data toks => parseDanceMoveLine toks
  | _ => none

lemma readDanceMoves_foldl_eq (lines : List ConfigLine) :
    ∀ acc : List DanceMove,
      lines.foldl
        (fun acc l =>
          match l with
          | ConfigLine.empty => acc
          | ConfigLine.comment _ => acc
          | ConfigLine.data toks =>
            match parseDanceMoveLine toks with
            | none => acc
            | some m => acc ++ [m])
        acc = acc ++ lines.filterMap dataLineMove := by
  induction lines with
  | nil => intro acc; simp
  | cons l rest ih =>
    intro acc
    cases l with
    | empty => simp [List.foldl_cons, ih, dataLineMove]
    | comment toks => simp [List.foldl_cons, ih, dataLineMove]
    | data toks =>
      cases hp : parseDanceMoveLine toks with
      | none => simp [List.foldl_cons, hp, ih, dataLineMove]
      | some m => simp [List.foldl_cons, hp, ih, dataLineMove]

lemma readDanceMovesFromConfig_eq (lines : List ConfigLine) :
    readDanceMovesFromConfig lines =
      if (lines.filterMap dataLineMove).isEmpty then
        Except.error "No valid dance moves found in configuration file"
      else
        Except.ok (lines.filterMap dataLineMove) := by
  simp only [readDanceMovesFromConfig]
  rw [readDanceMoves_foldl_eq lines []]
  simp

/-! Concrete inputs used by the witnesses. -/

/-- The all-zero joint configuration. -/
def cfgZero : JointConfig := fun _ => 0

/-- The configuration `(1, 0, 0, 0, 0, 0, 0)`. -/
def cfgUnit : JointConfig := fun i => if i.val = 0 then 1 else 0

/-- A constant control-cycle period of half a second. -/
def dtsHalf : ℕ → ℚ := fun _ => 1 / 2

lemma finRange7 : List.finRange 7 = [0, 1, 2, 3, 4, 5, 6] := rfl

lemma finVal3 : ((3 : Fin 7) : ℕ) = 3 := rfl

lemma finVal4 : ((4 : Fin 7) : ℕ) = 4 := rfl

lemma finVal5 : ((5 : Fin 7) : ℕ) = 5 := rfl

lemma finVal6 : ((6 : Fin 7) : ℕ) = 6 := rfl

lemma maxDelta_cfg : maxDelta cfgZero cfgUnit = 1 := by
  norm_num [maxDelta, maxDeltaLoop, finRange7, cfgZero, cfgUnit,
    finVal3, finVal4, finVal5, finVal6]

lemma cfgZero_ne_cfgUnit : cfgZero ≠ cfgUnit := by
  intro h
  have h0 := congrFun h 0
  norm_num [cfgZero, cfgUnit] at h0

/-- A token holding an integer literal: extractable both as `int` and as
`double`. -/
def intTok (n : ℤ) : Token := ⟨some n, some (n : ℚ)⟩

/-- A token holding a numeric literal that is not an `int`. -/
def numTok (q : ℚ) : Token := ⟨none, some q⟩

/-- A non-numeric token: both extractions fail. -/
def wordTok : Token := ⟨none, none⟩

/-- A well-formed data line: index `1`, seven joints, move time `3/2`. -/
def goodLine : List Token :=
  [intTok 1, numTok 0, numTok 0, numTok 0, numTok 0, numTok 0, numTok 0, numTok 0, numTok (3/2)]

/-- A malformed data line: the third field is not a number. -/
def badLine : List Token :=
  [intTok 2, numTok 0, wordTok, numTok 0, numTok 0, numTok 0, numTok 0, numTok 0, numTok (3/2)]

/-! The claims. -/

/-- Claim C1: for all 7-dimensional `start`, `target` and `desiredDuration > 0`,
`getSafeMovementTime` returns `max desiredDuration (maxDelta / 2)` where
`maxDelta = max_i |target_i - start_i|` (the loop's value dominates every
per-joint delta and is attained at some joint); hence the result is at least
`desiredDuration`, the rate `maxDelta / result` is within the cap `2.0`, and
the result is the smallest duration at least `desiredDuration` whose rate is
within the cap. -/
theorem getSafeMovementTime_contract (q_start q_end : JointConfig) (d : ℚ) (hd : 0 < d) :
    getSafeMovementTime q_start q_end d = max d (maxDelta q_start q_end / 2) ∧
    (∀ i, |q_end i - q_start i| ≤ maxDelta q_start q_end) ∧
    (∃ i, maxDelta q_start q_end = |q_end i - q_start i|) ∧
    d ≤ getSafeMovementTime q_start q_end d ∧
    maxDelta q_start q_end / getSafeMovementTime q_start q_end d ≤ 2 ∧
    (∀ x, d ≤ x → maxDelta q_start q_end / x ≤ 2 → getSafeMovementTime q_start q_end d ≤ x) := by
  have heq := getSafeMovementTime_eq_max q_start q_end d
  have hge : d ≤ getSafeMovementTime q_start q_end d := by
    rw [heq]; exact le_max_left _ _
  have hpos : 0 < getSafeMovementTime q_start q_end d := lt_of_lt_of_le hd hge
  refine ⟨heq, abs_sub_le_maxDelta q_start q_end, maxDelta_is_attained q_start q_end, hge, ?_, ?_⟩
  · rw [div_le_iff₀ hpos]
    have hhalf : maxDelta q_start q_end / 2 ≤ getSafeMovementTime q_start q_end d := by
      rw [heq]; exact le_max_right _ _
    linarith
  · intro x hdx hrate
    have hxpos : 0 < x := lt_of_lt_of_le hd hdx
    rw [div_le_iff₀ hxpos] at hrate
    rw [heq]
    exact max_le hdx (by linarith)

/-- Witness for C1: Scenario B of the spec, `start = 0`, `target = (1,0,...,0)`,
`desiredDuration = 0.1`: `maxDelta = 1` and the returned duration is `0.5`. -/
theorem getSafeMovementTime_contract_witness :
    (0 : ℚ) < 1 / 10 ∧ maxDelta cfgZero cfgUnit = 1 ∧
      getSafeMovementTime cfgZero cfgUnit (1 / 10) = 1 / 2 := by
  refine ⟨by norm_num, maxDelta_cfg, ?_⟩
  have h := (getSafeMovementTime_contract cfgZero cfgUnit (1 / 10) (by norm_num)).1
  rw [h, maxDelta_cfg, max_eq_right (by norm_num : (1 : ℚ) / 10 ≤ 1 / 2)]

/-- Claim C3 (code bug): the source performs no `desiredDuration ≤ 0` guard:
`getSafeMovementTime` proceeds with the safe-duration calculation on
non-positive requested durations and returns `maxDelta / 2 = 0.5` for the
configurations of Scenario B instead of rejecting the input. -/
theorem getSafeMovementTime_no_guard :
    getSafeMovementTime cfgZero cfgUnit 0 = 1 / 2 ∧
      getSafeMovementTime cfgZero cfgUnit (-1) = 1 / 2 := by
  have h0 := getSafeMovementTime_eq_max cfgZero cfgUnit 0
  have h1 := getSafeMovementTime_eq_max cfgZero cfgUnit (-1)
  rw [maxDelta_cfg] at h0 h1
  constructor
  · rw [h0, max_eq_right (by norm_num : (0 : ℚ) ≤ 1 / 2)]
  · rw [h1, max_eq_right (by norm_num : (-1 : ℚ) ≤ 1 / 2)]

/-- Claim C9: `getSafeMovementTime` is total and returns
`max desiredDuration (maxDelta / 2)` for every real `desiredDuration`,
including non-positive ones (no division by `desiredDuration` occurs on the
value path); when `start ≠ target` and `desiredDuration ≤ 0` the result is
the strictly positive `maxDelta / 2`. -/
theorem getSafeMovementTime_total (q_start q_end : JointConfig) (d : ℚ) :
    getSafeMovementTime q_start q_end d = max d (maxDelta q_start q_end / 2) ∧
    (d ≤ 0 → q_start ≠ q_end →
      getSafeMovementTime q_start q_end d = maxDelta q_start q_end / 2 ∧
        0 < getSafeMovementTime q_start q_end d) := by
  refine ⟨getSafeMovementTime_eq_max q_start q_end d, ?_⟩
  intro hd hne
  have hpos : 0 < maxDelta q_start q_end / 2 := by
    have := maxDelta_pos_of_ne hne
    positivity
  have heq : getSafeMovementTime q_start q_end d = maxDelta q_start q_end / 2 := by
    rw [getSafeMovementTime_eq_max q_start q_end d]
    exact max_eq_right (le_trans hd hpos.le)
  exact ⟨heq, heq ▸ hpos⟩

/-- Witness for C9: at `desiredDuration = -1` with distinct start/target the
result is `maxDelta / 2 > 0`. -/
theorem getSafeMovementTime_total_witness :
    (-1 : ℚ) ≤ 0 ∧ cfgZero ≠ cfgUnit ∧
      getSafeMovementTime cfgZero cfgUnit (-1) = maxDelta cfgZero cfgUnit / 2 ∧
      0 < getSafeMovementTime cfgZero cfgUnit (-1) := by
  have h := (getSafeMovementTime_total cfgZero cfgUnit (-1)).2 (by norm_num) cfgZero_ne_cfgUnit
  exact ⟨by norm_num, cfgZero_ne_cfgUnit, h.1, h.2⟩

/-- Claim C6: `quinticPath` returns `0` for `t ≤ 0`, `1` for `t ≥ T`
(otherwise, i.e. past the first branch), and `10u^3 - 15u^4 + 6u^5` with
`u = t/T` in between; in particular `s(0,T) = 0` and `s(T,T) = 1` for every
`T > 0`. -/
theorem quinticPath_branches (t T : ℚ) :
    (t ≤ 0 → quinticPath t T = 0) ∧
    (0 < t → T ≤ t → quinticPath t T = 1) ∧
    (0 < t → t < T →
      quinticPath t T = 10 * (t / T) ^ 3 - 15 * (t / T) ^ 4 + 6 * (t / T) ^ 5) ∧
    (0 < T → quinticPath 0 T = 0 ∧ quinticPath T T = 1) := by
  refine ⟨fun h => quinticPath_of_nonpos h,
    fun h0 h => quinticPath_of_ge h0 h,
    fun h0 h => by rw [quinticPath_of_mid h0 h]; rfl,
    fun hT => ⟨quinticPath_of_nonpos le_rfl, quinticPath_of_ge hT le_rfl⟩⟩

/-- Witness for C6: the three branches and the two endpoint values at
concrete inputs. -/
theorem quinticPath_branches_witness :
    ((-1 : ℚ) ≤ 0 ∧ quinticPath (-1) 2 = 0) ∧
    ((0 : ℚ) < 3 ∧ (2 : ℚ) ≤ 3 ∧ quinticPath 3 2 = 1) ∧
    ((0 : ℚ) < 1 ∧ (1 : ℚ) < 2 ∧
      quinticPath 1 2 = 10 * (1 / 2 : ℚ) ^ 3 - 15 * (1 / 2 : ℚ) ^ 4 + 6 * (1 / 2 : ℚ) ^ 5) ∧
    ((0 : ℚ) < 2 ∧ quinticPath 0 2 = 0 ∧ quinticPath 2 2 = 1) := by
  refine ⟨⟨by norm_num, (quinticPath_branches (-1) 2).1 (by norm_num)⟩,
    ⟨by norm_num, by norm_num, (quinticPath_branches 3 2).2.1 (by norm_num) (by norm_num)⟩,
    ⟨by norm_num, by norm_num, ?_⟩,
    ⟨by norm_num, (quinticPath_branches 0 2).2.2.2 (by norm_num)⟩⟩
  have h := (quinticPath_branches 1 2).2.2.1 (by norm_num) (by norm_num)
  rw [h]

/-- Claim C7: for `T > 0` the progress fraction `quinticPath t T` is monotone
non-decreasing in `t` on `[0, T]` and lies in `[0, 1]` for every `t`. -/
theorem quinticPath_monotone_bounded (T : ℚ) (hT : 0 < T) :
    (∀ t1 t2, 0 ≤ t1 → t1 ≤ t2 → t2 ≤ T → quinticPath t1 T ≤ quinticPath t2 T) ∧
    (∀ t, 0 ≤ quinticPath t T ∧ quinticPath t T ≤ 1) := by
  refine ⟨?_, fun t => quinticPath_bounds t T⟩
  intro t1 t2 h1 h12 h2T
  rcases le_or_lt t1 0 with h0 | h0
  · rw [quinticPath_of_nonpos h0]
    exact (quinticPath_bounds t2 T).1
  · rcases le_or_lt T t2 with hT2 | hT2
    · rw [quinticPath_of_ge (lt_of_lt_of_le h0 h12) hT2]
      exact (quinticPath_bounds t1 T).2
    · rw [quinticPath_of_mid h0 (lt_of_le_of_lt h12 hT2),
        quinticPath_of_mid (lt_of_lt_of_le h0 h12) hT2]
      exact quinticPoly_mono ((div_le_div_iff_of_pos_right hT).mpr h12)

/-- Witness for C7: monotone and bounded at concrete points for `T = 1`. -/
theorem quinticPath_monotone_bounded_witness :
    (0 : ℚ) < 1 ∧ quinticPath (1/4) 1 ≤ quinticPath (1/2) 1 ∧
      0 ≤ quinticPath 3 1 ∧ quinticPath 3 1 ≤ 1 := by
  have h := quinticPath_monotone_bounded 1 (by norm_num)
  exact ⟨by norm_num, h.1 (1/4) (1/2) (by norm_num) (by norm_num) (by norm_num),
    (h.2 3).1, (h.2 3).2⟩

/-- Claim C8: for `T > 0` and `t ∈ [0, T]`,
`quinticPath t T + quinticPath (T - t) T = 1`. -/
theorem quinticPath_symmetry (t T : ℚ) (hT : 0 < T) (h0 : 0 ≤ t) (htT : t ≤ T) :
    quinticPath t T + quinticPath (T - t) T = 1 := by
  rcases eq_or_lt_of_le h0 with h0' | h0'
  · rw [← h0', quinticPath_of_nonpos le_rfl, sub_zero, quinticPath_of_ge hT le_rfl]
    norm_num
  · rcases eq_or_lt_of_le htT with hT' | hT'
    · rw [hT', quinticPath_of_ge hT le_rfl, sub_self, quinticPath_of_nonpos le_rfl]
      norm_num
    · have hTt0 : 0 < T - t := by linarith
      have hTtT : T - t < T := by linarith
      rw [quinticPath_of_mid h0' hT', quinticPath_of_mid hTt0 hTtT]
      have hu : (T - t) / T = 1 - t / T := by
        field_simp
      rw [hu]
      exact quinticPoly_symm (t / T)

/-- Witness for C8: the symmetry at `t = 1/4`, `T = 1`. -/
theorem quinticPath_symmetry_witness :
    (0 : ℚ) < 1 ∧ (0 : ℚ) ≤ 1/4 ∧ (1/4 : ℚ) ≤ 1 ∧
      quinticPath (1/4) 1 + quinticPath (1 - 1/4) 1 = 1 := by
  exact ⟨by norm_num, by norm_num, by norm_num,
    quinticPath_symmetry (1/4) 1 (by norm_num) (by norm_num) (by norm_num)⟩

/-- Claim C10: `quinticPath` is total on every real pair `(t, T)`: it equals
its three-branch definition, and the branch containing the division `t / T`
is reached only when `0 < t < T`, which forces `T > 0` (so the division is
never by zero). -/
theorem quinticPath_total_no_div_by_zero (t T : ℚ) :
    quinticPath t T =
      (if t ≤ 0 then 0
       else if t ≥ T then 1
       else 10 * (t / T) ^ 3 - 15 * (t / T) ^ 4 + 6 * (t / T) ^ 5) ∧
    (¬ t ≤ 0 → ¬ t ≥ T → 0 < t ∧ t < T ∧ 0 < T) := by
  refine ⟨rfl, ?_⟩
  intro h1 h2
  rw [not_le] at h1
  rw [ge_iff_le, not_le] at h2
  exact ⟨h1, h2, lt_trans h1 h2⟩

/-- Witness for C10: the division branch at `t = 1`, `T = 2` indeed has
`0 < 1 < 2` with a positive denominator. -/
theorem quinticPath_total_no_div_by_zero_witness :
    ¬ (1 : ℚ) ≤ 0 ∧ ¬ (1 : ℚ) ≥ 2 ∧ ((0 : ℚ) < 1 ∧ (1 : ℚ) < 2 ∧ (0 : ℚ) < 2) := by
  exact ⟨by norm_num, by norm_num,
    (quinticPath_total_no_div_by_zero 1 2).2 (by norm_num) (by norm_num)⟩

/-- Claim C2: each control cycle emits
`command_i = start_i + fraction * (target_i - start_i)` with
`fraction = quinticPath(elapsed, safeDuration)`, and returns `MotionFinished`
(the terminal signal) exactly when the accumulated elapsed time has reached
`safeDuration * 1.01`; with non-negative cycle periods, once finished it stays
finished, so FINISHED first appears exactly on the cycle where the
accumulated time first reaches the threshold, and on no earlier cycle. -/
theorem controlCycle_finish_spec (q_current q_target : JointConfig) (T : ℚ)
    (dts : ℕ → ℚ) (hdts : ∀ k, 0 ≤ dts k) (n : ℕ) :
    ((controlCycle q_current q_target T dts n).command =
      fun i => q_current i +
        quinticPath (timeTotalThrough dts n) T * (q_target i - q_current i)) ∧
    ((controlCycle q_current q_target T dts n).finished = true ↔
      T * (101 / 100) ≤ timeTotalThrough dts n) ∧
    (∀ m, timeTotalThrough dts m < T * (101 / 100) →
      (controlCycle q_current q_target T dts m).finished = false) ∧
    ((controlCycle q_current q_target T dts n).finished = true →
      ∀ m, n ≤ m → (controlCycle q_current q_target T dts m).finished = true) := by
  have hfin : ∀ m, (controlCycle q_current q_target T dts m).finished = true ↔
      T * (101 / 100) ≤ timeTotalThrough dts m := by
    intro m
    simp [controlCycle, controlStep, timeTotalThrough, Finset.sum_range_succ, ge_iff_le]
  refine ⟨?_, hfin n, ?_, ?_⟩
  · simp [controlCycle, controlStep, timeTotalThrough, Finset.sum_range_succ]
  · intro m hm
    rw [Bool.eq_false_iff]
    intro hc
    exact absurd ((hfin m).mp hc) (not_le.mpr hm)
  · intro hn m hnm
    rw [hfin m]
    refine le_trans ((hfin n).mp hn) ?_
    apply Finset.sum_le_sum_of_subset_of_nonneg
    · exact Finset.range_subset.mpr (Nat.succ_le_succ hnm)
    · exact fun i _ _ => hdts i

/-- Witness for C2: with `safeDuration = 1` and constant half-second periods,
the accumulated time first reaches `1.01` on cycle 2 (`elapsed = 1.5`):
FINISHED is signalled there and not on cycle 1 (`elapsed = 1.0`). -/
theorem controlCycle_finish_spec_witness :
    (∀ k, 0 ≤ dtsHalf k) ∧
      (controlCycle cfgZero cfgUnit 1 dtsHalf 2).finished = true ∧
      (controlCycle cfgZero cfgUnit 1 dtsHalf 1).finished = false := by
  have hdts : ∀ k, 0 ≤ dtsHalf k := fun k => by norm_num [dtsHalf]
  have h := controlCycle_finish_spec cfgZero cfgUnit 1 dtsHalf hdts 2
  refine ⟨hdts, h.2.1.mpr ?_, h.2.2.1 1 ?_⟩
  · norm_num [timeTotalThrough, dtsHalf, Finset.sum_range_succ]
  · norm_num [timeTotalThrough, dtsHalf, Finset.sum_range_succ]

/-- Claim C4: a configuration line contributes a move to the sequence exactly
when the move index, all 7 joint values and the move time all parse from it
(the `istringstream` fail state is sticky, so any earlier field failure also
fails the final `move_time` extraction and the record is dropped); an
appended move always carries all 7 parsed joints, and the move sequence is
exactly the per-line parses of the non-skipped lines. -/
theorem configLine_whole_record (toks : List Token) :
    ((parseDanceMoveLine toks).isSome = lineWellFormed toks) ∧
    (∀ m : DanceMove, parseDanceMoveLine toks = some m →
      m.joints.length = 7 ∧ ∀ v ∈ m.joints, Option.isSome v = true) ∧
    (∀ lines : List ConfigLine,
      readDanceMovesFromConfig lines =
        if (lines.filterMap dataLineMove).isEmpty then
          Except.error "No valid dance moves found in configuration file"
        else Except.ok (lines.filterMap dataLineMove)) :=
  ⟨parseDanceMoveLine_isSome_eq toks,
    fun m hm => parseDanceMoveLine_joints toks m hm,
    fun lines => readDanceMovesFromConfig_eq lines⟩

/-- Witness for C4: a fully well-formed line parses to a complete move, and a
line whose third field is non-numeric contributes no move at all. -/
theorem configLine_whole_record_witness :
    (parseDanceMoveLine goodLine).isSome = true ∧
    (parseDanceMoveLine badLine).isSome = false ∧
    (∃ m : DanceMove, parseDanceMoveLine goodLine = some m ∧
      m.joints.length = 7 ∧ ∀ v ∈ m.joints, Option.isSome v = true) := by
  refine ⟨?_, ?_, ?_⟩
  · rw [(configLine_whole_record goodLine).1]; rfl
  · rw [(configLine_whole_record badLine).1]; rfl
  · have hp : parseDanceMoveLine goodLine =
        some ⟨1, [some 0, some 0, some 0, some 0, some 0, some 0, some 0], 3/2⟩ := rfl
    exact ⟨_, hp, (configLine_whole_record goodLine).2.1 _ hp⟩

/-- Claim C5: on a faulting attempt with retry enabled, `moveJoints` recovers
once and retries exactly once with retry disabled on the nested call (so at
most two motion attempts ever happen); if the retry also faults the move
reports `-1.0` and no further retry occurs. -/
theorem moveJoints_retry_protocol :
    (∀ o1 o2, (moveJoints o1 o2).attempts ≤ 2) ∧
    (∀ o2, (moveJoints AttemptOutcome.fault o2).recoveries = 1 ∧
      (moveJoints AttemptOutcome.fault o2).attempts = 2 ∧
      (moveJoints AttemptOutcome.fault o2).result = (moveJointsNoRetry o2).result) ∧
    (∀ o, (moveJointsNoRetry o).recoveries = 0 ∧ (moveJointsNoRetry o).attempts = 1) ∧
    (moveJoints AttemptOutcome.fault AttemptOutcome.fault).result = -1 := by
  refine ⟨?_, ?_, ?_, rfl⟩
  · intro o1 o2
    cases o1 <;> cases o2 <;> norm_num [moveJoints, moveJointsNoRetry]
  · intro o2
    cases o2 <;> norm_num [moveJoints, moveJointsNoRetry]
  · intro o
    cases o <;> norm_num [moveJointsNoRetry]

end FrankaAR
